import Mathlib

/-!
Verification development for `train_dense_encoder.py` (DPR bi-encoder training
pipeline).  The Python source is shallowly embedded below: tensors become lists
of rows tagged with an autograd flag, the distributed gather becomes the
rank-ordered list of worker payloads, and the trainer's control decisions
become pure functions on explicit state.
-/

namespace DPR

/-- A torch tensor, modelled as its list of rows together with whether autograd
tracks it (`requires_grad`).  Rows are abstract values of type `α`. -/
structure GTensor (α : Type) where
  rows : List α
  requiresGrad : Bool
deriving DecidableEq, Repr

/-- `Tensor.detach_()` / sending a tensor through the gather: same row values,
no gradient tracking. -/
def GTensor.detach {α : Type} (t : GTensor α) : GTensor α :=
  { rows := t.rows, requiresGrad := false }

/-- The per-worker local arguments of `_calc_loss`
(`train_dense_encoder.py:811`). -/
structure LocalInputs (α : Type) where
  local_q_vector : GTensor α
  local_ctx_vectors : GTensor α
  local_positive_idxs : List Nat
  local_hard_negatives_idxs : List (List Nat)
deriving DecidableEq, Repr

/-- The payload a worker contributes to `all_gather_list` in `_calc_loss`
(lines 826-837): detached cpu copies of its query/context vectors plus its
index lists unchanged. -/
def sendPayload {α : Type} (w : LocalInputs α) : LocalInputs α :=
  { local_q_vector := w.local_q_vector.detach,
    local_ctx_vectors := w.local_ctx_vectors.detach,
    local_positive_idxs := w.local_positive_idxs,
    local_hard_negatives_idxs := w.local_hard_negatives_idxs }

/-- Modelled from the spec: `all_gather_list` (dpr/utils/dist_utils.py, not
under src/).  Per spec §4.3 it returns to every worker the rank-ordered list of
all workers' local payloads; with `world_size = 1` it degenerates to the
one-element list of the local input.  We therefore model it as the identity on
the world view (the list of every worker's payload in rank order). -/
def all_gather_list {β : Type} (world : List β) : List β := world

/-- The pooled inputs `_calc_loss` hands to `loss_function.calc` (lines
839-869), with the per-rank tensor slots kept separate (the code applies
`torch.cat` over exactly these slots). -/
structure GlobalInputs (α : Type) where
  global_q_slots : List (GTensor α)
  global_ctx_slots : List (GTensor α)
  positive_idx_per_question : List Nat
  hard_negatives_per_question : List (List Nat)
deriving DecidableEq, Repr

/-- The concatenated global query pool (`torch.cat(global_q_vector, dim=0)`),
as its list of rows. -/
def GlobalInputs.qRows {α : Type} (g : GlobalInputs α) : List α :=
  (g.global_q_slots.map GTensor.rows).flatten

/-- The concatenated global passage pool (`torch.cat(global_ctxs_vector,
dim=0)`), as its list of rows. -/
def GlobalInputs.ctxRows {α : Type} (g : GlobalInputs α) : List α :=
  (g.global_ctx_slots.map GTensor.rows).flatten

/-- The loop of `_calc_loss` lines 848-861: iterate over the gathered items in
rank order with the running passage offset `total_ctxs`; at the caller's own
rank use the original (gradient-tracked) local tensors and local index lists,
otherwise use the received (detached) tensors and received index lists; rebase
every positive / hard-negative index by the running offset. -/
def gatherFold {α : Type} (local_rank : Nat) (localIn : LocalInputs α) :
    Nat → Nat → List (LocalInputs α) → GlobalInputs α
  | _, _, [] =>
    { global_q_slots := [], global_ctx_slots := [],
      positive_idx_per_question := [], hard_negatives_per_question := [] }
  | i, total_ctxs, item :: rest =>
    let slotQ := if i ≠ local_rank then item.local_q_vector else localIn.local_q_vector
    let slotC := if i ≠ local_rank then item.local_ctx_vectors else localIn.local_ctx_vectors
    let pos := if i ≠ local_rank then item.local_positive_idxs else localIn.local_positive_idxs
    let hn := if i ≠ local_rank then item.local_hard_negatives_idxs
              else localIn.local_hard_negatives_idxs
    let restOut := gatherFold local_rank localIn (i + 1)
      (total_ctxs + item.local_ctx_vectors.rows.length) rest
    { global_q_slots := slotQ :: restOut.global_q_slots,
      global_ctx_slots := slotC :: restOut.global_ctx_slots,
      positive_idx_per_question :=
        pos.map (· + total_ctxs) ++ restOut.positive_idx_per_question,
      hard_negatives_per_question :=
        hn.map (fun l => l.map (· + total_ctxs)) ++ restOut.hard_negatives_per_question }

/-- `cfg.distributed_world_size or 1`: an unset (0) world size counts as 1. -/
def effWorldSize (distributed_world_size : Nat) : Nat :=
  if distributed_world_size = 0 then 1 else distributed_world_size

/-- The input-pooling part of `_calc_loss` (lines 824-869).  `world` is the
rank-ordered list of every worker's local inputs (the view the gather
distributes); `localIn` is the calling worker's own local arguments.  With more
than one worker the gathered payloads are folded into the global pools;
otherwise the local inputs pass through untouched (modelled as a single slot
holding the local tensors, so the concatenated pools equal the local ones). -/
def calc_loss_inputs {α : Type} (distributed_world_size local_rank : Nat)
    (localIn : LocalInputs α) (world : List (LocalInputs α)) : GlobalInputs α :=
  if 1 < effWorldSize distributed_world_size then
    gatherFold local_rank localIn 0 0 (all_gather_list (world.map sendPayload))
  else
    { global_q_slots := [localIn.local_q_vector],
      global_ctx_slots := [localIn.local_ctx_vectors],
      positive_idx_per_question := localIn.local_positive_idxs,
      hard_negatives_per_question := localIn.local_hard_negatives_idxs }

/-- Number of passage rows contributed by workers of rank `< i`
(the running offset `total_ctxs` reaches exactly this value at rank `i`). -/
def ctxOffsetBefore {α : Type} (world : List (LocalInputs α)) (i : Nat) : Nat :=
  ((world.take i).map (fun w => w.local_ctx_vectors.rows.length)).sum

/-- The re-based positive indices, worker by worker in rank order, starting
from running offset `t`. -/
def rebasedPositives {α : Type} : Nat → List (LocalInputs α) → List Nat
  | _, [] => []
  | t, w :: rest =>
    w.local_positive_idxs.map (· + t) ++
      rebasedPositives (t + w.local_ctx_vectors.rows.length) rest

/-- The re-based hard-negative index lists, worker by worker in rank order,
starting from running offset `t`. -/
def rebasedHardNegatives {α : Type} : Nat → List (LocalInputs α) → List (List Nat)
  | _, [] => []
  | t, w :: rest =>
    w.local_hard_negatives_idxs.map (fun l => l.map (· + t)) ++
      rebasedHardNegatives (t + w.local_ctx_vectors.rows.length) rest

theorem sendPayload_ctx_rows {α : Type} (w : LocalInputs α) :
    (sendPayload w).local_ctx_vectors.rows = w.local_ctx_vectors.rows := rfl

theorem sendPayload_pos {α : Type} (w : LocalInputs α) :
    (sendPayload w).local_positive_idxs = w.local_positive_idxs := rfl

theorem rebasedPositives_map_sendPayload {α : Type} :
    ∀ (ws : List (LocalInputs α)) (t : Nat),
      rebasedPositives t (ws.map sendPayload) = rebasedPositives t ws
  | [], _ => rfl
  | w :: rest, t => by
    simp only [List.map_cons, rebasedPositives, sendPayload_pos, sendPayload_ctx_rows,
      rebasedPositives_map_sendPayload rest]

theorem rebasedHardNegatives_map_sendPayload {α : Type} :
    ∀ (ws : List (LocalInputs α)) (t : Nat),
      rebasedHardNegatives t (ws.map sendPayload) = rebasedHardNegatives t ws
  | [], _ => rfl
  | w :: rest, t => by
    simp only [List.map_cons, rebasedHardNegatives, sendPayload_ctx_rows,
      rebasedHardNegatives_map_sendPayload rest]
    rfl

theorem gatherFold_ctx_slot_get {α : Type} (lr : Nat) (localIn : LocalInputs α) :
    ∀ (ws : List (LocalInputs α)) (i t j : Nat) (hj : j < ws.length),
      (gatherFold lr localIn i t ws).global_ctx_slots[j]? =
        some (if i + j ≠ lr then ws[j].local_ctx_vectors else localIn.local_ctx_vectors)
  | w :: rest, i, t, 0, _ => by
    simp [gatherFold]
  | w :: rest, i, t, j + 1, hj => by
    have hrec := gatherFold_ctx_slot_get lr localIn rest (i + 1)
      (t + w.local_ctx_vectors.rows.length) j (by simpa using Nat.lt_of_succ_lt_succ hj)
    have harith : i + 1 + j = i + (j + 1) := by omega
    rw [harith] at hrec
    simpa [gatherFold] using hrec

theorem gatherFold_q_slot_get {α : Type} (lr : Nat) (localIn : LocalInputs α) :
    ∀ (ws : List (LocalInputs α)) (i t j : Nat) (hj : j < ws.length),
      (gatherFold lr localIn i t ws).global_q_slots[j]? =
        some (if i + j ≠ lr then ws[j].local_q_vector else localIn.local_q_vector)
  | w :: rest, i, t, 0, _ => by
    simp [gatherFold]
  | w :: rest, i, t, j + 1, hj => by
    have hrec := gatherFold_q_slot_get lr localIn rest (i + 1)
      (t + w.local_ctx_vectors.rows.length) j (by simpa using Nat.lt_of_succ_lt_succ hj)
    have harith : i + 1 + j = i + (j + 1) := by omega
    rw [harith] at hrec
    simpa [gatherFold] using hrec

theorem gatherFold_ctx_rows {α : Type} (lr : Nat) (localIn : LocalInputs α) :
    ∀ (ws : List (LocalInputs α)) (i t : Nat),
      (∀ j (hj : j < ws.length), i + j = lr →
        ws[j].local_ctx_vectors.rows = localIn.local_ctx_vectors.rows) →
      (gatherFold lr localIn i t ws).global_ctx_slots.map GTensor.rows =
        ws.map (fun w => w.local_ctx_vectors.rows)
  | [], _, _, _ => rfl
  | w :: rest, i, t, H => by
    have Hrest : ∀ j (hj : j < rest.length), (i + 1) + j = lr →
        rest[j].local_ctx_vectors.rows = localIn.local_ctx_vectors.rows := by
      intro j hj hij
      have := H (j + 1) (by simpa using Nat.succ_lt_succ hj) (by omega)
      simpa using this
    have hrec := gatherFold_ctx_rows lr localIn rest (i + 1)
      (t + w.local_ctx_vectors.rows.length) Hrest
    by_cases hi : i = lr
    · subst hi
      have hw : w.local_ctx_vectors.rows = localIn.local_ctx_vectors.rows := by
        have := H 0 (by simp) (by omega)
        simpa using this
      rw [hw] at hrec
      simp [gatherFold, hw, hrec]
    · simp [gatherFold, hi, hrec]

theorem gatherFold_pos {α : Type} (lr : Nat) (localIn : LocalInputs α) :
    ∀ (ws : List (LocalInputs α)) (i t : Nat),
      (∀ j (hj : j < ws.length), i + j = lr →
        ws[j].local_positive_idxs = localIn.local_positive_idxs) →
      (gatherFold lr localIn i t ws).positive_idx_per_question = rebasedPositives t ws
  | [], _, _, _ => rfl
  | w :: rest, i, t, H => by
    have Hrest : ∀ j (hj : j < rest.length), (i + 1) + j = lr →
        rest[j].local_positive_idxs = localIn.local_positive_idxs := by
      intro j hj hij
      have := H (j + 1) (by simpa using Nat.succ_lt_succ hj) (by omega)
      simpa using this
    have hrec := gatherFold_pos lr localIn rest (i + 1)
      (t + w.local_ctx_vectors.rows.length) Hrest
    by_cases hi : i = lr
    · subst hi
      have hw : w.local_positive_idxs = localIn.local_positive_idxs := by
        have := H 0 (by simp) (by omega)
        simpa using this
      simp [gatherFold, rebasedPositives, hw, hrec]
    · simp [gatherFold, rebasedPositives, hi, hrec]

theorem gatherFold_hn {α : Type} (lr : Nat) (localIn : LocalInputs α) :
    ∀ (ws : List (LocalInputs α)) (i t : Nat),
      (∀ j (hj : j < ws.length), i + j = lr →
        ws[j].local_hard_negatives_idxs = localIn.local_hard_negatives_idxs) →
      (gatherFold lr localIn i t ws).hard_negatives_per_question = rebasedHardNegatives t ws
  | [], _, _, _ => rfl
  | w :: rest, i, t, H => by
    have Hrest : ∀ j (hj : j < rest.length), (i + 1) + j = lr →
        rest[j].local_hard_negatives_idxs = localIn.local_hard_negatives_idxs := by
      intro j hj hij
      have := H (j + 1) (by simpa using Nat.succ_lt_succ hj) (by omega)
      simpa using this
    have hrec := gatherFold_hn lr localIn rest (i + 1)
      (t + w.local_ctx_vectors.rows.length) Hrest
    by_cases hi : i = lr
    · subst hi
      have hw : w.local_hard_negatives_idxs = localIn.local_hard_negatives_idxs := by
        have := H 0 (by simp) (by omega)
        simpa using this
      simp [gatherFold, rebasedHardNegatives, hw, hrec]
    · simp [gatherFold, rebasedHardNegatives, hi, hrec]

theorem flatten_getElem_offset {α : Type} :
    ∀ (ls : List (List α)) (i : Nat) (hi : i < ls.length) (v : Nat),
      v < ls[i].length →
      ls.flatten[((ls.take i).map List.length).sum + v]? = ls[i][v]?
  | l :: ls, 0, _, v, hv => by
    simp only [List.take_zero, List.map_nil, List.sum_nil, Nat.zero_add, List.flatten_cons,
      List.getElem_cons_zero]
    rw [List.getElem?_append, if_pos (by simpa using hv)]
  | l :: ls, i + 1, hi, v, hv => by
    have hrec := flatten_getElem_offset ls i (by simpa using Nat.lt_of_succ_lt_succ hi) v
      (by simpa using hv)
    simp only [List.take_succ_cons, List.map_cons, List.sum_cons, List.flatten_cons,
      List.getElem_cons_succ]
    rw [List.getElem?_append_right (by omega)]
    have harith : l.length + (((ls.take i).map List.length).sum + v) - l.length =
        ((ls.take i).map List.length).sum + v := by omega
    rw [Nat.add_assoc, harith]
    exact hrec

/-- Example worker 0 local inputs (integer-valued rows) used to witness the
pooled-loss theorems. -/
def w0ex : LocalInputs ℤ :=
  { local_q_vector := ⟨[100, 101], true⟩,
    local_ctx_vectors := ⟨[10, 11], true⟩,
    local_positive_idxs := [0, 1],
    local_hard_negatives_idxs := [[1], [0]] }

/-- Example worker 1 local inputs used to witness the pooled-loss theorems. -/
def w1ex : LocalInputs ℤ :=
  { local_q_vector := ⟨[200], true⟩,
    local_ctx_vectors := ⟨[20, 21, 22], true⟩,
    local_positive_idxs := [2],
    local_hard_negatives_idxs := [[0, 1]] }

/-- C1: in `_calc_loss`, with `distributed_world_size` 1 or unset the global
query/passage pools and the positive/hard-negative index lists are exactly the
local inputs with no transformation; with `distributed_world_size = k > 1` the
global passage pool is the concatenation of every worker's local passage
vectors in rank order, its row count is the sum of the local passage counts,
the emitted index lists are exactly each worker's local indices shifted by the
running offset of passages contributed by lower-ranked workers, and each such
re-based index points at the very passage row its originating worker supplied
locally. -/
theorem calc_loss_pool_spec {α : Type} (wsz lr : Nat) (localIn : LocalInputs α)
    (world : List (LocalInputs α)) (hrank : world[lr]? = some localIn) :
    (effWorldSize wsz ≤ 1 →
      (calc_loss_inputs wsz lr localIn world).qRows = localIn.local_q_vector.rows ∧
      (calc_loss_inputs wsz lr localIn world).ctxRows = localIn.local_ctx_vectors.rows ∧
      (calc_loss_inputs wsz lr localIn world).positive_idx_per_question =
        localIn.local_positive_idxs ∧
      (calc_loss_inputs wsz lr localIn world).hard_negatives_per_question =
        localIn.local_hard_negatives_idxs) ∧
    (1 < effWorldSize wsz →
      (calc_loss_inputs wsz lr localIn world).ctxRows =
        (world.map (fun w => w.local_ctx_vectors.rows)).flatten ∧
      (calc_loss_inputs wsz lr localIn world).ctxRows.length =
        (world.map (fun w => w.local_ctx_vectors.rows.length)).sum ∧
      (calc_loss_inputs wsz lr localIn world).positive_idx_per_question =
        rebasedPositives 0 world ∧
      (calc_loss_inputs wsz lr localIn world).hard_negatives_per_question =
        rebasedHardNegatives 0 world ∧
      ∀ i (hi : i < world.length) (v : Nat), v < world[i].local_ctx_vectors.rows.length →
        (calc_loss_inputs wsz lr localIn world).ctxRows[ctxOffsetBefore world i + v]? =
          world[i].local_ctx_vectors.rows[v]?) := by
  have hlr : lr < world.length := by
    by_contra h
    rw [List.getElem?_eq_none (by omega)] at hrank
    exact Option.noConfusion hrank
  have hlocal : world[lr] = localIn :=
    Option.some.inj ((List.getElem?_eq_getElem hlr) ▸ hrank)
  constructor
  · intro h1
    have hn1 : ¬ 1 < effWorldSize wsz := by omega
    refine ⟨?_, ?_, ?_, ?_⟩ <;>
      simp [calc_loss_inputs, hn1, GlobalInputs.qRows, GlobalInputs.ctxRows]
  · intro h2
    have Hctx : ∀ j (hj : j < (world.map sendPayload).length), 0 + j = lr →
        (world.map sendPayload)[j].local_ctx_vectors.rows =
          localIn.local_ctx_vectors.rows := by
      intro j hj hij
      have hjlr : j = lr := by omega
      subst hjlr
      simp only [List.getElem_map, sendPayload_ctx_rows, hlocal]
    have hrows : (calc_loss_inputs wsz lr localIn world).global_ctx_slots.map GTensor.rows =
        world.map (fun w => w.local_ctx_vectors.rows) := by
      unfold calc_loss_inputs
      rw [if_pos h2]
      rw [gatherFold_ctx_rows lr localIn (all_gather_list (world.map sendPayload)) 0 0 Hctx]
      rw [all_gather_list, List.map_map]
      rfl
    have hcat : (calc_loss_inputs wsz lr localIn world).ctxRows =
        (world.map (fun w => w.local_ctx_vectors.rows)).flatten := by
      rw [GlobalInputs.ctxRows, hrows]
    refine ⟨hcat, ?_, ?_, ?_, ?_⟩
    · rw [hcat, List.length_flatten, List.map_map]
      rfl
    · have Hpos : ∀ j (hj : j < (world.map sendPayload).length), 0 + j = lr →
          (world.map sendPayload)[j].local_positive_idxs =
            localIn.local_positive_idxs := by
        intro j hj hij
        have hjlr : j = lr := by omega
        subst hjlr
        simp only [List.getElem_map, sendPayload_pos, hlocal]
      unfold calc_loss_inputs
      rw [if_pos h2]
      rw [gatherFold_pos lr localIn (all_gather_list (world.map sendPayload)) 0 0 Hpos]
      rw [all_gather_list, rebasedPositives_map_sendPayload]
    · have Hhn : ∀ j (hj : j < (world.map sendPayload).length), 0 + j = lr →
          (world.map sendPayload)[j].local_hard_negatives_idxs =
            localIn.local_hard_negatives_idxs := by
        intro j hj hij
        have hjlr : j = lr := by omega
        subst hjlr
        simp only [List.getElem_map, hlocal]
        rfl
      unfold calc_loss_inputs
      rw [if_pos h2]
      rw [gatherFold_hn lr localIn (all_gather_list (world.map sendPayload)) 0 0 Hhn]
      rw [all_gather_list, rebasedHardNegatives_map_sendPayload]
    · intro i hi v hv
      rw [hcat]
      have hoffset : ctxOffsetBefore world i =
          (((world.map (fun w => w.local_ctx_vectors.rows)).take i).map List.length).sum := by
        rw [ctxOffsetBefore, ← List.map_take, List.map_map]
        rfl
      rw [hoffset]
      have hi2 : i < (world.map (fun w => w.local_ctx_vectors.rows)).length := by
        simpa using hi
      have := flatten_getElem_offset (world.map (fun w => w.local_ctx_vectors.rows)) i hi2 v
        (by simpa using hv)
      rw [this]
      simp only [List.getElem_map]

/-- Witness for `calc_loss_pool_spec`: two concrete workers with 2 and 3
passage rows; the pooled passage count is 5 and the re-based positive list is
the concatenation of the shifted local lists. -/
theorem calc_loss_pool_spec_witness :
    (calc_loss_inputs 2 0 w0ex [w0ex, w1ex]).ctxRows.length =
      ([w0ex, w1ex].map (fun w => w.local_ctx_vectors.rows.length)).sum ∧
    (calc_loss_inputs 2 0 w0ex [w0ex, w1ex]).positive_idx_per_question =
      rebasedPositives 0 [w0ex, w1ex] :=
  ⟨(((calc_loss_pool_spec 2 0 w0ex [w0ex, w1ex] (by rfl)).2 (by decide)).2).1,
   ((((calc_loss_pool_spec 2 0 w0ex [w0ex, w1ex] (by rfl)).2 (by decide)).2).2).1⟩

/-- C2: in multi-worker mode the pooled tensor slot at the calling worker's own
rank is the original local tensor itself (its gradient-tracking flag intact),
while every other rank's slot is the detached copy received from the gather, so
it carries no gradient tracking. -/
theorem calc_loss_grad_slots {α : Type} (wsz lr : Nat) (localIn : LocalInputs α)
    (world : List (LocalInputs α)) (hrank : world[lr]? = some localIn)
    (h2 : 1 < effWorldSize wsz) :
    (calc_loss_inputs wsz lr localIn world).global_ctx_slots[lr]? =
      some localIn.local_ctx_vectors ∧
    (calc_loss_inputs wsz lr localIn world).global_q_slots[lr]? =
      some localIn.local_q_vector ∧
    ∀ i (hi : i < world.length), i ≠ lr →
      (calc_loss_inputs wsz lr localIn world).global_ctx_slots[i]? =
        some world[i].local_ctx_vectors.detach ∧
      (calc_loss_inputs wsz lr localIn world).global_q_slots[i]? =
        some world[i].local_q_vector.detach ∧
      world[i].local_ctx_vectors.detach.requiresGrad = false ∧
      world[i].local_q_vector.detach.requiresGrad = false := by
  have hlr : lr < world.length := by
    by_contra h
    rw [List.getElem?_eq_none (by omega)] at hrank
    exact Option.noConfusion hrank
  have hout : calc_loss_inputs wsz lr localIn world =
      gatherFold lr localIn 0 0 (world.map sendPayload) := by
    unfold calc_loss_inputs
    rw [if_pos h2, all_gather_list]
  refine ⟨?_, ?_, ?_⟩
  · rw [hout, gatherFold_ctx_slot_get lr localIn (world.map sendPayload) 0 0 lr (by simpa using hlr)]
    simp
  · rw [hout, gatherFold_q_slot_get lr localIn (world.map sendPayload) 0 0 lr (by simpa using hlr)]
    simp
  · intro i hi hne
    refine ⟨?_, ?_, rfl, rfl⟩
    · rw [hout, gatherFold_ctx_slot_get lr localIn (world.map sendPayload) 0 0 i (by simpa using hi)]
      simp only [Nat.zero_add, List.getElem_map]
      rw [if_pos hne]
      rfl
    · rw [hout, gatherFold_q_slot_get lr localIn (world.map sendPayload) 0 0 i (by simpa using hi)]
      simp only [Nat.zero_add, List.getElem_map]
      rw [if_pos hne]
      rfl

/-- Witness for `calc_loss_grad_slots`: with two concrete workers, worker 0's
slot is its own gradient-tracked tensor and worker 1's slot is the detached
copy. -/
theorem calc_loss_grad_slots_witness :
    (calc_loss_inputs 2 0 w0ex [w0ex, w1ex]).global_ctx_slots[0]? =
      some w0ex.local_ctx_vectors ∧
    (calc_loss_inputs 2 0 w0ex [w0ex, w1ex]).global_ctx_slots[1]? =
      some w1ex.local_ctx_vectors.detach ∧
    w1ex.local_ctx_vectors.detach.requiresGrad = false := by
  have h := calc_loss_grad_slots 2 0 w0ex [w0ex, w1ex] (by rfl) (by decide)
  exact ⟨h.1, (h.2.2 1 (by decide) (by decide)).1, (h.2.2 1 (by decide) (by decide)).2.2.1⟩

/-! ## validate_and_save: validation scalar selection and best-checkpoint tracking -/

/-- The slice of the hydra config consumed by `validate_and_save`
(`train_dense_encoder.py:248-310`). -/
structure VSConfig where
  local_rank : Int
  dev_datasets : Bool
  val_av_rank_start_epoch : Nat
  higher_is_better : Bool
  save_best_only : Bool
deriving DecidableEq, Repr

/-- The numeric validation signals produced by the (external) metric
computations: `validate_nll`, `validate_ask_ai_metrics` (its `p@30` entry, when
a fixed passage corpus is configured) and `validate_average_rank`. -/
structure ValSignals where
  dev_nll_loss : ℚ
  average_rank : ℚ
  p_at_30 : Option ℚ
deriving DecidableEq, Repr

/-- The trainer's best-checkpoint tracking state
(`self.best_validation_result`, `self.best_cp_name`). -/
structure TrainerState where
  best_validation_result : Option ℚ
  best_cp_name : Option String
deriving DecidableEq, Repr

/-- Python `self.best_validation_result or y`: `None` *and* a stored `0` are
falsy, so both fall back to `y`. -/
def pyOrQ (x : Option ℚ) (y : ℚ) : ℚ :=
  match x with
  | none => y
  | some v => if v = 0 then y else v

/-- The scalar `validation_loss` computed by `validate_and_save` lines 265-283:
0 with no dev datasets; otherwise `p@30` when a passage corpus supplied it and
the epoch reached `val_av_rank_start_epoch`, else the average rank past that
threshold, else the dev NLL loss. -/
def computeValidationLoss (cfg : VSConfig) (epoch : Nat) (sig : ValSignals) : ℚ :=
  if cfg.dev_datasets = false then 0
  else if cfg.val_av_rank_start_epoch ≤ epoch then
    match sig.p_at_30 with
    | some p => p
    | none => sig.average_rank
  else sig.dev_nll_loss

/-- What one `validate_and_save` call produces: the updated tracker state,
whether a new best was registered, whether a checkpoint file was written, and
whether any validation metrics were computed (the returned dict is empty iff
they were not). -/
structure VSResult where
  state : TrainerState
  best_model_found : Bool
  checkpoint_saved : Bool
  metrics_computed : Bool
  validation_loss : ℚ
deriving DecidableEq, Repr

/-- `validate_and_save` (`train_dense_encoder.py:248-310`): reset the tracked
best at the threshold epoch, compute the validation scalar, and on the
checkpoint-writing rank with `save=True` run the strictly-better comparison
(via Python `or`, `pyOrQ`), write a checkpoint unless `save_best_only`
suppresses non-best ones, and record the new best value and checkpoint name
when one was found. -/
def validate_and_save (cfg : VSConfig) (epoch : Nat) (st : TrainerState)
    (sig : ValSignals) (save : Bool) (cp_candidate : String) : VSResult :=
  let save_cp : Bool := cfg.local_rank == -1 || cfg.local_rank == 0
  let st1 : TrainerState :=
    if epoch = cfg.val_av_rank_start_epoch then
      { st with best_validation_result := none }
    else st
  let metrics_computed := cfg.dev_datasets
  let validation_loss := computeValidationLoss cfg epoch sig
  if save_cp && save then
    let best_model_found : Bool :=
      (!cfg.higher_is_better &&
        decide (validation_loss < pyOrQ st1.best_validation_result (validation_loss + 1))) ||
      (cfg.higher_is_better &&
        decide (pyOrQ st1.best_validation_result (validation_loss - 1) < validation_loss))
    let cp_name : Option String :=
      if !cfg.save_best_only || (cfg.save_best_only && best_model_found) then
        some cp_candidate
      else none
    if best_model_found && cp_name.isSome then
      { state := { best_validation_result := some validation_loss, best_cp_name := cp_name },
        best_model_found := best_model_found, checkpoint_saved := cp_name.isSome,
        metrics_computed := metrics_computed, validation_loss := validation_loss }
    else
      { state := st1, best_model_found := best_model_found,
        checkpoint_saved := cp_name.isSome,
        metrics_computed := metrics_computed, validation_loss := validation_loss }
  else
    { state := st1, best_model_found := false, checkpoint_saved := false,
      metrics_computed := metrics_computed, validation_loss := validation_loss }

/-- Feed a sequence of validation values (as held-out NLL losses, before the
average-rank threshold epoch) through successive `validate_and_save` calls,
recording which calls registered a new best. -/
def runValSequence (cfg : VSConfig) (epoch : Nat) :
    List ℚ → TrainerState → List Bool
  | [], _ => []
  | v :: rest, st =>
    (validate_and_save cfg epoch st ⟨v, v, none⟩ true "cp").best_model_found ::
      runValSequence cfg epoch rest
        (validate_and_save cfg epoch st ⟨v, v, none⟩ true "cp").state

/-- A lower-is-better configuration with dev datasets, rank 0, and a high
average-rank threshold epoch. -/
def cfgLowerEx : VSConfig :=
  { local_rank := 0, dev_datasets := true, val_av_rank_start_epoch := 100,
    higher_is_better := false, save_best_only := false }

/-- A rank-0, lower-is-better configuration with no dev datasets. -/
def cfgNoDevEx : VSConfig :=
  { local_rank := 0, dev_datasets := false, val_av_rank_start_epoch := 100,
    higher_is_better := false, save_best_only := false }

/-- A configuration with dev datasets and average-rank threshold epoch 2. -/
def cfgDevEx : VSConfig :=
  { local_rank := 0, dev_datasets := true, val_av_rank_start_epoch := 2,
    higher_is_better := false, save_best_only := false }

/-- C3 counterexample: lower-is-better, tracked best `0`, new value `0` — a
tie.  Because Python's `or` treats the stored `0` as unset, the comparison
becomes `0 < 0 + 1` and the tie *does* register as a new best, replacing the
best checkpoint name, contrary to the claim that an equal value never replaces
the best. -/
theorem best_tracker_tie_at_zero :
    (validate_and_save cfgLowerEx 0 ⟨some 0, some "old"⟩ ⟨0, 0, none⟩ true
      "new").best_model_found = true ∧
    (validate_and_save cfgLowerEx 0 ⟨some 0, some "old"⟩ ⟨0, 0, none⟩ true
      "new").state.best_cp_name = some "new" := by
  constructor <;>
    norm_num [validate_and_save, computeValidationLoss, pyOrQ, cfgLowerEx]

/-- C3 (amended): on the checkpoint-writing rank, away from the reset epoch and
with a *nonzero* tracked best `b`, a call registers a new best exactly when the
new value is strictly better than `b` in the direction selected by
`higher_is_better` (a stored best of 0 is falsy in Python's `or` and behaves as
unset instead); and for lower-is-better with successive values
`[5, 3, 4, 3]` exactly the 1st and 2nd calls register a new best. -/
theorem best_tracker_strictly_better :
    (∀ (cfg : VSConfig) (epoch : Nat) (st : TrainerState) (sig : ValSignals)
        (cp : String) (b : ℚ),
      (cfg.local_rank = -1 ∨ cfg.local_rank = 0) →
      epoch ≠ cfg.val_av_rank_start_epoch →
      st.best_validation_result = some b → b ≠ 0 →
      ((validate_and_save cfg epoch st sig true cp).best_model_found = true ↔
        (if cfg.higher_is_better then b < computeValidationLoss cfg epoch sig
         else computeValidationLoss cfg epoch sig < b))) ∧
    runValSequence cfgLowerEx 0 [5, 3, 4, 3] ⟨none, none⟩ =
      [true, true, false, false] := by
  constructor
  · intro cfg epoch st sig cp b hrank hne hb hb0
    have hsave : (cfg.local_rank == -1 || cfg.local_rank == 0) = true := by
      rcases hrank with h | h <;> simp [h]
    simp only [validate_and_save, hsave, Bool.true_and, if_neg hne, hb, pyOrQ,
      if_neg hb0]
    rcases hhib : cfg.higher_is_better with _ | _
    · simp [hhib, apply_ite VSResult.best_model_found]
    · simp [hhib, apply_ite VSResult.best_model_found]
  · norm_num [runValSequence, validate_and_save, computeValidationLoss, pyOrQ, cfgLowerEx]

/-- Witness for `best_tracker_strictly_better`: lower-is-better, tracked best
5, new value 3 — strictly better, so a new best is registered. -/
theorem best_tracker_strictly_better_witness :
    (validate_and_save cfgLowerEx 0 ⟨some 5, some "old"⟩ ⟨3, 3, none⟩ true
      "cp").best_model_found = true :=
  (best_tracker_strictly_better.1 cfgLowerEx 0 ⟨some 5, some "old"⟩ ⟨3, 3, none⟩
    "cp" 5 (Or.inr rfl) (by decide) rfl (by decide)).mpr (by decide)

/-- C4: with dev datasets configured, the scalar used for best-model selection
is `p@30` when a fixed passage corpus supplied it and the epoch reached
`val_av_rank_start_epoch`, else the average rank past that threshold, else the
dev NLL loss before it; and at the call whose epoch equals the threshold the
tracked best value is reset before the comparison (the call's outcome does not
depend on the previously tracked best value). -/
theorem validation_loss_selection (cfg : VSConfig) (epoch : Nat) (sig : ValSignals)
    (hdev : cfg.dev_datasets = true) :
    (cfg.val_av_rank_start_epoch ≤ epoch → ∀ p, sig.p_at_30 = some p →
        computeValidationLoss cfg epoch sig = p) ∧
    (cfg.val_av_rank_start_epoch ≤ epoch → sig.p_at_30 = none →
        computeValidationLoss cfg epoch sig = sig.average_rank) ∧
    (epoch < cfg.val_av_rank_start_epoch →
        computeValidationLoss cfg epoch sig = sig.dev_nll_loss) ∧
    (∀ (st₁ st₂ : TrainerState) (save : Bool) (cp : String),
        epoch = cfg.val_av_rank_start_epoch →
        st₁.best_cp_name = st₂.best_cp_name →
        validate_and_save cfg epoch st₁ sig save cp =
          validate_and_save cfg epoch st₂ sig save cp) := by
  refine ⟨?_, ?_, ?_, ?_⟩
  · intro hge p hp
    simp [computeValidationLoss, hdev, hge, hp]
  · intro hge hp
    simp [computeValidationLoss, hdev, hge, hp]
  · intro hlt
    simp [computeValidationLoss, hdev, Nat.not_le.mpr hlt]
  · intro st₁ st₂ save cp heq hcp
    have h1 : ({ st₁ with best_validation_result := none } : TrainerState) =
        { st₂ with best_validation_result := none } := by
      cases st₁; cases st₂
      simp_all
    simp [validate_and_save, heq, h1]

/-- Witness for `validation_loss_selection`: threshold 2, epoch 3, `p@30`
available — the selection scalar is `p@30 = 9/10`. -/
theorem validation_loss_selection_witness :
    computeValidationLoss cfgDevEx 3 ⟨1, 2, some (9/10)⟩ = 9/10 :=
  (validation_loss_selection cfgDevEx 3 ⟨1, 2, some (9/10)⟩ rfl).1
    (by decide) (9/10) rfl

/-- C10 counterexample: with no dev datasets and lower-is-better, the *second*
call also registers a new best (the stored best 0 is falsy in `or`, so the
comparison is `0 < 0 + 1` again), and the best checkpoint name is replaced,
contrary to the claim that every call after the first ties at 0 and does not
register. -/
theorem no_dev_second_call_registers :
    (validate_and_save cfgNoDevEx 0
        (validate_and_save cfgNoDevEx 0 ⟨none, none⟩ ⟨0, 0, none⟩ true
          "cp1").state
        ⟨0, 0, none⟩ true "cp2").best_model_found = true ∧
    (validate_and_save cfgNoDevEx 0
        (validate_and_save cfgNoDevEx 0 ⟨none, none⟩ ⟨0, 0, none⟩ true
          "cp1").state
        ⟨0, 0, none⟩ true "cp2").state.best_cp_name = some "cp2" := by
  constructor <;>
    norm_num [validate_and_save, computeValidationLoss, pyOrQ, cfgNoDevEx]

/-- C10 (amended): with no dev datasets a `validate_and_save` call computes no
validation metrics (the returned dict is empty) and uses the constant 0 as the
validation value; consequently, under lower-is-better on the saving rank,
*every* such call registers a new best (reachable tracked bests are `none` or
`0`, both falsy in `or`), each time replacing the best checkpoint name. -/
theorem validate_and_save_no_dev (cfg : VSConfig) (epoch : Nat) (st : TrainerState)
    (sig : ValSignals) (cp : String)
    (hdev : cfg.dev_datasets = false)
    (hrank : cfg.local_rank = -1 ∨ cfg.local_rank = 0)
    (hlow : cfg.higher_is_better = false)
    (hst : st.best_validation_result = none ∨ st.best_validation_result = some 0) :
    (validate_and_save cfg epoch st sig true cp).metrics_computed = false ∧
    (validate_and_save cfg epoch st sig true cp).validation_loss = 0 ∧
    (validate_and_save cfg epoch st sig true cp).best_model_found = true ∧
    (validate_and_save cfg epoch st sig true cp).state.best_validation_result = some 0 ∧
    (validate_and_save cfg epoch st sig true cp).state.best_cp_name = some cp := by
  have hsave : (cfg.local_rank == -1 || cfg.local_rank == 0) = true := by
    rcases hrank with h | h <;> simp [h]
  have hloss : computeValidationLoss cfg epoch sig = 0 := by
    simp [computeValidationLoss, hdev]
  have hbest : pyOrQ (if epoch = cfg.val_av_rank_start_epoch then
      ({ st with best_validation_result := none } : TrainerState)
      else st).best_validation_result (0 + 1) = 1 := by
    by_cases he : epoch = cfg.val_av_rank_start_epoch
    · simp [he, pyOrQ]
    · rcases hst with h | h <;> simp [he, h, pyOrQ]
  refine ⟨?_, ?_, ?_, ?_, ?_⟩ <;>
    · simp only [validate_and_save, hsave, Bool.true_and, hloss, hlow, hbest]
      by_cases hsbo : cfg.save_best_only <;> norm_num [hsbo, hdev]

/-- Witness for `validate_and_save_no_dev`: a concrete no-dev call in a state
whose tracked best is 0 computes no metrics, uses value 0, and registers a new
best. -/
theorem validate_and_save_no_dev_witness :
    (validate_and_save cfgNoDevEx 3 ⟨some 0, some "old"⟩ ⟨7, 7, none⟩ true
      "cp9").metrics_computed = false ∧
    (validate_and_save cfgNoDevEx 3 ⟨some 0, some "old"⟩ ⟨7, 7, none⟩ true
      "cp9").validation_loss = 0 ∧
    (validate_and_save cfgNoDevEx 3 ⟨some 0, some "old"⟩ ⟨7, 7, none⟩ true
      "cp9").best_model_found = true :=
  ⟨(validate_and_save_no_dev cfgNoDevEx 3 ⟨some 0, some "old"⟩ ⟨7, 7, none⟩ "cp9"
      rfl (Or.inr rfl) rfl (Or.inr rfl)).1,
   (validate_and_save_no_dev cfgNoDevEx 3 ⟨some 0, some "old"⟩ ⟨7, 7, none⟩ "cp9"
      rfl (Or.inr rfl) rfl (Or.inr rfl)).2.1,
   (validate_and_save_no_dev cfgNoDevEx 3 ⟨some 0, some "old"⟩ ⟨7, 7, none⟩ "cp9"
      rfl (Or.inr rfl) rfl (Or.inr rfl)).2.2.1⟩

/-! ## validate_average_rank -/

/-- The rank computation of `validate_average_rank`
(`train_dense_encoder.py:468-475`): sort the candidate indices of one query by
similarity score, descending (`torch.sort(scores, dim=1, descending=True)`),
and locate the gold passage index in that sorted order
(`(indices[i] == idx).nonzero()`).  The result is the 0-based position of
`gold` among the descending-sorted candidates. -/
def rankOfGold (scores : List ℚ) (gold : Nat) : Nat :=
  (List.insertionSort (fun i j : Nat => scores.getD j 0 ≤ scores.getD i 0)
    (List.range scores.length)).indexOf gold

/-- The per-worker statistics accumulated by `validate_average_rank` lines
471-475: the sum of gold ranks and the number of questions over this worker's
locally visible passage pool.  A query is its row of similarity scores paired
with its gold passage index. -/
def localRankStats (queries : List (List ℚ × Nat)) : Nat × Nat :=
  ((queries.map (fun q => rankOfGold q.1 q.2)).sum, queries.length)

/-- `validate_average_rank` in single-worker mode: `rank / q_num`. -/
def validate_average_rank_single (queries : List (List ℚ × Nat)) : ℚ :=
  ((localRankStats queries).1 : ℚ) / ((localRankStats queries).2 : ℚ)

/-- The aggregation loop of `validate_average_rank` lines 477-485: starting
from the local `(rank, q_num)`, walk the gathered statistics in rank order and
add every entry except the one at the caller's own rank. -/
def gatherStatsFold (local_rank : Nat) : Nat → List (Nat × Nat) → Nat × Nat → Nat × Nat
  | _, [], acc => acc
  | i, s :: rest, acc =>
    gatherStatsFold local_rank (i + 1) rest
      (if i ≠ local_rank then (acc.1 + s.1, acc.2 + s.2) else acc)

/-- `validate_average_rank` in multi-worker mode (lines 477-487): `stats` is
the rank-ordered gathered list of every worker's `[rank, q_num]`
(spec-modelled `all_gather_list`, §4.3), `own` the caller's local pair; the
result is the combined mean rank. -/
def validate_average_rank_multi (stats : List (Nat × Nat)) (local_rank : Nat)
    (own : Nat × Nat) : ℚ :=
  ((gatherStatsFold local_rank 0 stats own).1 : ℚ) /
    ((gatherStatsFold local_rank 0 stats own).2 : ℚ)

theorem gatherStatsFold_no_skip (lr : Nat) :
    ∀ (l : List (Nat × Nat)) (i : Nat) (acc : Nat × Nat), lr < i →
      gatherStatsFold lr i l acc =
        (acc.1 + (l.map Prod.fst).sum, acc.2 + (l.map Prod.snd).sum)
  | [], _, _, _ => by simp [gatherStatsFold]
  | s :: rest, i, acc, hlt => by
    have hne : i ≠ lr := by omega
    simp only [gatherStatsFold, if_pos hne]
    rw [gatherStatsFold_no_skip lr rest (i + 1) _ (by omega)]
    simp [Nat.add_assoc]

theorem gatherStatsFold_with_own (lr : Nat) (own : Nat × Nat) :
    ∀ (l : List (Nat × Nat)) (i a b : Nat), i ≤ lr → l[lr - i]? = some own →
      gatherStatsFold lr i l (a + own.1, b + own.2) =
        (a + (l.map Prod.fst).sum, b + (l.map Prod.snd).sum)
  | [], i, a, b, hle, hget => by simp at hget
  | s :: rest, i, a, b, hle, hget => by
    by_cases hi : i = lr
    · subst hi
      have hs : s = own := by
        rw [Nat.sub_self] at hget
        simpa using hget
      simp only [gatherStatsFold]
      rw [if_neg (by omega)]
      rw [gatherStatsFold_no_skip i rest (i + 1) _ (by omega)]
      simp [hs, Nat.add_assoc]
    · have hget2 : rest[lr - (i + 1)]? = some own := by
        have harith : lr - i = (lr - (i + 1)) + 1 := by omega
        rw [harith] at hget
        simpa using hget
      simp only [gatherStatsFold]
      rw [if_pos (by omega : i ≠ lr)]
      rw [show a + own.1 + s.1 = a + s.1 + own.1 by omega,
          show b + own.2 + s.2 = b + s.2 + own.2 by omega,
          gatherStatsFold_with_own lr own rest (i + 1) (a + s.1) (b + s.2) (by omega) hget2]
      simp [Nat.add_assoc]

theorem validate_average_rank_multi_eq (stats : List (Nat × Nat)) (lr : Nat)
    (own : Nat × Nat) (hrank : stats[lr]? = some own) :
    validate_average_rank_multi stats lr own =
      (((stats.map Prod.fst).sum : Nat) : ℚ) / (((stats.map Prod.snd).sum : Nat) : ℚ) := by
  have h := gatherStatsFold_with_own lr own stats 0 0 0 (by omega) (by simpa using hrank)
  simp only [Nat.zero_add, Prod.mk.eta] at h
  rw [validate_average_rank_multi, h]

theorem rankOfGold_eq_zero_of_max (scores : List ℚ) (gold : Nat)
    (hg : gold < scores.length)
    (hmax : ∀ j, j < scores.length → j ≠ gold → scores.getD j 0 < scores.getD gold 0) :
    rankOfGold scores gold = 0 := by
  haveI htot : IsTotal Nat (fun i j : Nat => scores.getD j 0 ≤ scores.getD i 0) :=
    ⟨fun a b => le_total _ _⟩
  haveI htr : IsTrans Nat (fun i j : Nat => scores.getD j 0 ≤ scores.getD i 0) :=
    ⟨fun a b c hab hbc => le_trans hbc hab⟩
  have hperm := List.perm_insertionSort
    (fun i j : Nat => scores.getD j 0 ≤ scores.getD i 0) (List.range scores.length)
  have hsorted := List.sorted_insertionSort
    (fun i j : Nat => scores.getD j 0 ≤ scores.getD i 0) (List.range scores.length)
  have hmem : gold ∈ List.insertionSort
      (fun i j : Nat => scores.getD j 0 ≤ scores.getD i 0) (List.range scores.length) :=
    hperm.mem_iff.mpr (List.mem_range.mpr hg)
  unfold rankOfGold
  rcases hl : List.insertionSort
      (fun i j : Nat => scores.getD j 0 ≤ scores.getD i 0) (List.range scores.length)
    with _ | ⟨a, t⟩
  · rw [hl] at hmem
    simp at hmem
  · rw [hl] at hmem hsorted hperm
    by_cases ha : a = gold
    · rw [ha]
      exact List.indexOf_cons_self _ _
    · exfalso
      have hgt : gold ∈ t := by
        rcases List.mem_cons.mp hmem with h | h
        · exact absurd h.symm ha
        · exact h
      have hra : scores.getD gold 0 ≤ scores.getD a 0 :=
        List.rel_of_sorted_cons hsorted gold hgt
      have haP : a < scores.length := by
        have : a ∈ List.range scores.length := hperm.mem_iff.mp (List.mem_cons_self a t)
        exact List.mem_range.mp this
      exact absurd hra (not_le.mpr (hmax a haP ha))

theorem rankOfGold_eq_last_of_min (scores : List ℚ) (gold : Nat)
    (hg : gold < scores.length)
    (hmin : ∀ j, j < scores.length → j ≠ gold → scores.getD gold 0 < scores.getD j 0) :
    rankOfGold scores gold = scores.length - 1 := by
  haveI htot : IsTotal Nat (fun i j : Nat => scores.getD j 0 ≤ scores.getD i 0) :=
    ⟨fun a b => le_total _ _⟩
  haveI htr : IsTrans Nat (fun i j : Nat => scores.getD j 0 ≤ scores.getD i 0) :=
    ⟨fun a b c hab hbc => le_trans hbc hab⟩
  unfold rankOfGold
  set l := List.insertionSort
    (fun i j : Nat => scores.getD j 0 ≤ scores.getD i 0) (List.range scores.length)
    with hldef
  have hperm : l.Perm (List.range scores.length) := List.perm_insertionSort _ _
  have hsorted : l.Sorted (fun i j : Nat => scores.getD j 0 ≤ scores.getD i 0) :=
    List.sorted_insertionSort _ _
  have hmem : gold ∈ l := hperm.mem_iff.mpr (List.mem_range.mpr hg)
  have hlen : l.length = scores.length := by
    rw [hperm.length_eq, List.length_range]
  have hnodup : l.Nodup := hperm.nodup_iff.mpr (List.nodup_range _)
  have hne : l ≠ [] := by
    intro h
    rw [h] at hlen
    simp at hlen
    omega
  have hdecomp : l.dropLast ++ [l.getLast hne] = l := List.dropLast_append_getLast hne
  have hlast : l.getLast hne = gold := by
    by_contra hla
    have hgoldin : gold ∈ l.dropLast := by
      have hmem2 := hmem
      rw [← hdecomp] at hmem2
      rcases List.mem_append.mp hmem2 with h | h
      · exact h
      · simp only [List.mem_singleton] at h
        exact absurd h.symm hla
    have hsorted2 := hsorted
    rw [← hdecomp] at hsorted2
    have hrel := (List.pairwise_append.mp hsorted2).2.2 gold hgoldin (l.getLast hne)
      (List.mem_singleton.mpr rfl)
    have hlastP : l.getLast hne < scores.length := by
      have : l.getLast hne ∈ List.range scores.length :=
        hperm.mem_iff.mp (List.getLast_mem hne)
      exact List.mem_range.mp this
    exact absurd hrel (not_le.mpr (hmin _ hlastP hla))
  have hnotin : gold ∉ l.dropLast := by
    have hnd := hnodup
    rw [← hdecomp] at hnd
    rcases List.nodup_append.mp hnd with ⟨-, -, hdisj⟩
    intro hin
    exact hdisj hin (by rw [hlast]; exact List.mem_singleton.mpr rfl)
  rw [← hdecomp, hlast, List.indexOf_append_of_not_mem hnotin]
  simp [List.indexOf_cons_self, List.length_dropLast, hlen]

/-- C5: `validate_average_rank` returns the mean 0-based position of each
query's gold passage among the descending-sorted similarity scores over the
locally visible passage pool: a single query whose positive passage scores
strictly highest among all candidates yields exactly rank 0; one whose
positive scores strictly lowest among `P` candidates yields exactly `P - 1`;
and in multi-worker mode the returned value is (sum of all workers' rank sums)
/ (sum of all workers' query counts), the caller's own contribution counted
exactly once (its slot of the gathered list is skipped because its own pair
seeds the accumulator). -/
theorem validate_average_rank_spec :
    (∀ (scores : List ℚ) (gold : Nat), gold < scores.length →
      (∀ j, j < scores.length → j ≠ gold → scores.getD j 0 < scores.getD gold 0) →
      validate_average_rank_single [(scores, gold)] = 0) ∧
    (∀ (scores : List ℚ) (gold : Nat), gold < scores.length →
      (∀ j, j < scores.length → j ≠ gold → scores.getD gold 0 < scores.getD j 0) →
      validate_average_rank_single [(scores, gold)] = ((scores.length - 1 : Nat) : ℚ)) ∧
    (∀ (stats : List (Nat × Nat)) (lr : Nat) (own : Nat × Nat),
      stats[lr]? = some own →
      validate_average_rank_multi stats lr own =
        (((stats.map Prod.fst).sum : Nat) : ℚ) /
          (((stats.map Prod.snd).sum : Nat) : ℚ)) := by
  refine ⟨?_, ?_, ?_⟩
  · intro scores gold hg hmax
    rw [validate_average_rank_single]
    simp [localRankStats, rankOfGold_eq_zero_of_max scores gold hg hmax]
  · intro scores gold hg hmin
    rw [validate_average_rank_single]
    simp [localRankStats, rankOfGold_eq_last_of_min scores gold hg hmin]
  · intro stats lr own h
    exact validate_average_rank_multi_eq stats lr own h

/-- Witness for `validate_average_rank_spec`: a query whose gold candidate
scores highest of [5, 3] has rank 0; one whose gold scores lowest of
[1, 3, 4] has rank 2; gathered statistics [(3, 2), (5, 4)] for the worker of
rank 1 combine to mean (3 + 5) / (2 + 4). -/
theorem validate_average_rank_spec_witness :
    validate_average_rank_single [([5, 3], 0)] = 0 ∧
    validate_average_rank_single [([1, 3, 4], 0)] = ((2 : Nat) : ℚ) ∧
    validate_average_rank_multi [(3, 2), (5, 4)] 1 (5, 4) =
      ((8 : Nat) : ℚ) / ((6 : Nat) : ℚ) := by
  refine ⟨?_, ?_, ?_⟩
  · exact validate_average_rank_spec.1 [5, 3] 0 (by norm_num)
      (by
        intro j hj hne
        have hj2 : j < 2 := by simpa using hj
        interval_cases j
        · exact absurd rfl hne
        · norm_num [List.getD])
  · exact validate_average_rank_spec.2.1 [1, 3, 4] 0 (by norm_num)
      (by
        intro j hj hne
        have hj2 : j < 3 := by simpa using hj
        interval_cases j
        · exact absurd rfl hne
        · norm_num [List.getD]
        · norm_num [List.getD])
  · simpa using validate_average_rank_spec.2.2 [(3, 2), (5, 4)] 1 (5, 4) rfl

/-! ## Trainer state machine: validation cadence, resume, empty data, startup -/

/-- `eval_step` from `run_train` (`train_dense_encoder.py:234`):
`math.ceil(updates_per_epoch / eval_per_epoch)`. -/
def eval_step (updates_per_epoch eval_per_epoch : Nat) : Nat :=
  ⌈(updates_per_epoch : ℚ) / (eval_per_epoch : ℚ)⌉₊

theorem eval_step_eq_add_pred_div (u p : Nat) (hp : 0 < p) :
    eval_step u p = (u + p - 1) / p := by
  have hp0 : (0 : ℚ) < (p : ℚ) := by exact_mod_cast hp
  apply le_antisymm
  · rw [eval_step, Nat.ceil_le, div_le_iff₀ hp0]
    have h := Nat.lt_div_mul_add (a := u + p - 1) hp
    have h1 : u ≤ (u + p - 1) / p * p := by omega
    exact_mod_cast h1
  · rcases Nat.eq_zero_or_pos ((u + p - 1) / p) with hk | hk
    · rw [hk]
      exact Nat.zero_le _
    · have hku : ((u + p - 1) / p - 1) * p < u := by
        have h2 := Nat.div_mul_le_self (u + p - 1) p
        have hpk : ((u + p - 1) / p - 1) * p = (u + p - 1) / p * p - p := by
          rw [Nat.sub_mul, one_mul]
        have hBp : p ≤ (u + p - 1) / p * p := by
          have := Nat.mul_le_mul_right p hk
          simpa using this
        omega
      have hceil : (u + p - 1) / p - 1 < ⌈(u : ℚ) / p⌉₊ := by
        rw [Nat.lt_ceil, lt_div_iff₀ hp0]
        exact_mod_cast hku
      rw [eval_step]
      omega

/-- Modelled from the spec: the multiset iterator's iteration counter
(dpr/utils/data_utils.py, not under src/) increases monotonically across the
epoch (§4.2); the i-th produced batch (0-based) observes counter `i + 1`.
This is the trace of `validate_and_save` calls `_train_epoch` makes (lines
708-722), as `(iteration, save-flag)` pairs: an in-epoch call (save=False) at
every batch whose counter is a multiple of `es` — but only when
`cfg.train.eval_during_epoch` is set — plus one unconditional end-of-epoch
call (save=True) at the final counter value. -/
def train_epoch_val_calls (eval_during_epoch : Bool) (es num_batches : Nat) :
    List (Nat × Bool) :=
  ((List.range num_batches).filterMap (fun i =>
    if (i + 1) % es = 0 ∧ eval_during_epoch = true then some (i + 1, false) else none))
  ++ [(num_batches, true)]

/-- C6 counterexample: with `eval_during_epoch` unset, `eval_step 1 1 = 1` and
batch 1 has an iteration counter that is a multiple of `eval_step`, yet no
in-epoch validation call is made — validation at eval-step multiples also
requires the `eval_during_epoch` flag the claim omits. -/
theorem eval_cadence_needs_flag :
    1 % eval_step 1 1 = 0 ∧
    ((1, false) ∉ train_epoch_val_calls false (eval_step 1 1) 1) := by
  have h : eval_step 1 1 = 1 := by
    rw [eval_step_eq_add_pred_div 1 1 (by norm_num)]
  rw [h]
  exact ⟨rfl, by decide⟩

/-- C6 (amended): `eval_step` equals the ceiling `(u + p - 1) / p` of
`updates_per_epoch / eval_per_epoch`; during an epoch a validation call is
made exactly at the batches whose iteration counter is a multiple of
`eval_step` *when `eval_during_epoch` is enabled* (none otherwise); and one
validation call always runs at the end of every epoch. -/
theorem eval_cadence (flag : Bool) (u p n : Nat) (hp : 0 < p) :
    eval_step u p = (u + p - 1) / p ∧
    (∀ it : Nat,
      ((it, false) ∈ train_epoch_val_calls flag (eval_step u p) n ↔
        (1 ≤ it ∧ it ≤ n ∧ it % eval_step u p = 0 ∧ flag = true))) ∧
    (n, true) ∈ train_epoch_val_calls flag (eval_step u p) n := by
  refine ⟨eval_step_eq_add_pred_div u p hp, ?_, ?_⟩
  · intro it
    simp only [train_epoch_val_calls, List.mem_append, List.mem_singleton,
      List.mem_filterMap, List.mem_range]
    constructor
    · rintro (⟨i, hin, hif⟩ | h)
      · by_cases hc : (i + 1) % eval_step u p = 0 ∧ flag = true
        · rw [if_pos hc] at hif
          have hit : i + 1 = it := congrArg Prod.fst (Option.some.inj hif)
          exact ⟨by omega, by omega, by rw [← hit]; exact hc.1, hc.2⟩
        · rw [if_neg hc] at hif
          exact absurd hif (by simp)
      · exact absurd (congrArg Prod.snd h) (by simp)
    · rintro ⟨h1, h2, h3, h4⟩
      left
      refine ⟨it - 1, by omega, ?_⟩
      have hit : it - 1 + 1 = it := by omega
      rw [hit, if_pos ⟨h3, h4⟩]
  · simp [train_epoch_val_calls]

/-- Witness for `eval_cadence`: 4 updates, 2 evals per epoch, so
`eval_step = 2`; with the in-epoch flag enabled validation runs at iteration 2
and unconditionally at epoch end (iteration 4). -/
theorem eval_cadence_witness :
    (2, false) ∈ train_epoch_val_calls true (eval_step 4 2) 4 ∧
    (4, true) ∈ train_epoch_val_calls true (eval_step 4 2) 4 :=
  ⟨((eval_cadence true 4 2 4 (by norm_num)).2.1 2).mpr
      ⟨by norm_num, by norm_num,
       by rw [(eval_cadence true 4 2 4 (by norm_num)).1], rfl⟩,
   (eval_cadence true 4 2 4 (by norm_num)).2.2⟩

/-- The two resume-related configuration flags consumed by
`_load_saved_state`. -/
structure LoadCfg where
  ignore_checkpoint_offset : Bool
  ignore_checkpoint_optimizer : Bool
deriving DecidableEq, Repr

/-- The checkpoint fields `_load_saved_state` inspects: the stored epoch, the
stored mid-epoch batch offset, and whether optimizer / scheduler state blobs
are present. -/
structure SavedState where
  epoch : Nat
  offset : Nat
  has_optimizer_dict : Bool
  has_scheduler_dict : Bool
deriving DecidableEq, Repr

/-- What `_load_saved_state` establishes on the trainer. -/
structure LoadOutcome where
  start_epoch : Nat
  start_batch : Nat
  optimizer_restored : Bool
  scheduler_state_restored : Bool
deriving DecidableEq, Repr

/-- `_load_saved_state` (`train_dense_encoder.py:781-808`): the stored offset
is never used to resume iteration (`self.start_batch = 0  # offset`); a stored
offset of 0 bumps the resumed epoch by one; `ignore_checkpoint_offset` resets
the start epoch/batch to 0; the *separate* flag `ignore_checkpoint_optimizer`
controls whether optimizer and scheduler state are restored. -/
def load_saved_state (cfg : LoadCfg) (s : SavedState) : LoadOutcome :=
  let epoch := if s.offset = 0 then s.epoch + 1 else s.epoch
  if cfg.ignore_checkpoint_offset then
    { start_epoch := 0, start_batch := 0,
      optimizer_restored := !cfg.ignore_checkpoint_optimizer && s.has_optimizer_dict,
      scheduler_state_restored := !cfg.ignore_checkpoint_optimizer && s.has_scheduler_dict }
  else
    { start_epoch := epoch, start_batch := 0,
      optimizer_restored := !cfg.ignore_checkpoint_optimizer && s.has_optimizer_dict,
      scheduler_state_restored := !cfg.ignore_checkpoint_optimizer && s.has_scheduler_dict }

/-- C7 counterexample: with only `ignore_checkpoint_offset` set (and
`ignore_checkpoint_optimizer` unset), the stored offset/epoch are ignored but
the optimizer and scheduler state are still restored — there is no single flag
that restores only model weights, contrary to the claim. -/
theorem load_ignore_offset_still_restores_optimizer :
    (load_saved_state ⟨true, false⟩ ⟨3, 0, true, true⟩).start_epoch = 0 ∧
    (load_saved_state ⟨true, false⟩ ⟨3, 0, true, true⟩).start_batch = 0 ∧
    (load_saved_state ⟨true, false⟩ ⟨3, 0, true, true⟩).optimizer_restored = true ∧
    (load_saved_state ⟨true, false⟩ ⟨3, 0, true, true⟩).scheduler_state_restored = true :=
  ⟨rfl, rfl, rfl, rfl⟩

/-- C7 (amended): `start_batch` is always 0 regardless of the stored offset; a
stored offset of 0 resumes at the stored epoch plus one (when the offset flag
is unset); `ignore_checkpoint_offset` forces `start_epoch = start_batch = 0`;
and the *separate* flag `ignore_checkpoint_optimizer` (not the offset flag)
skips restoring optimizer and scheduler state, so only setting both flags
restores nothing but model weights. -/
theorem load_saved_state_spec (cfg : LoadCfg) (s : SavedState) :
    (load_saved_state cfg s).start_batch = 0 ∧
    (cfg.ignore_checkpoint_offset = false → s.offset = 0 →
      (load_saved_state cfg s).start_epoch = s.epoch + 1) ∧
    (cfg.ignore_checkpoint_offset = true →
      (load_saved_state cfg s).start_epoch = 0) ∧
    (cfg.ignore_checkpoint_optimizer = true →
      (load_saved_state cfg s).optimizer_restored = false ∧
      (load_saved_state cfg s).scheduler_state_restored = false) ∧
    (cfg.ignore_checkpoint_optimizer = false →
      (load_saved_state cfg s).optimizer_restored = s.has_optimizer_dict ∧
      (load_saved_state cfg s).scheduler_state_restored = s.has_scheduler_dict) := by
  refine ⟨?_, ?_, ?_, ?_, ?_⟩
  · by_cases h : cfg.ignore_checkpoint_offset <;> simp [load_saved_state, h]
  · intro h h0
    simp [load_saved_state, h, h0]
  · intro h
    simp [load_saved_state, h]
  · intro h
    by_cases ho : cfg.ignore_checkpoint_offset <;> simp [load_saved_state, h, ho]
  · intro h
    by_cases ho : cfg.ignore_checkpoint_offset <;> simp [load_saved_state, h, ho]

/-- Witness for `load_saved_state_spec`: both flags set — weights-only restore;
offset 0 with flags unset — epoch bumps by one, batch offset still 0. -/
theorem load_saved_state_spec_witness :
    (load_saved_state ⟨true, true⟩ ⟨3, 5, true, true⟩).start_epoch = 0 ∧
    (load_saved_state ⟨true, true⟩ ⟨3, 5, true, true⟩).optimizer_restored = false ∧
    (load_saved_state ⟨false, false⟩ ⟨3, 0, true, true⟩).start_epoch = 4 ∧
    (load_saved_state ⟨false, false⟩ ⟨3, 0, true, true⟩).start_batch = 0 :=
  ⟨(load_saved_state_spec ⟨true, true⟩ ⟨3, 5, true, true⟩).2.2.1 rfl,
   ((load_saved_state_spec ⟨true, true⟩ ⟨3, 5, true, true⟩).2.2.2.1 rfl).1,
   (load_saved_state_spec ⟨false, false⟩ ⟨3, 0, true, true⟩).2.1 rfl rfl,
   (load_saved_state_spec ⟨false, false⟩ ⟨3, 0, true, true⟩).1⟩

/-- Modelled from the spec: `MultiSetDataIterator.get_max_iterations`
(dpr/utils/data_utils.py, not under src/) reports the epoch's total batch
count as the sum of the per-source batch counts (§4.2). -/
def get_max_iterations (source_batch_counts : List Nat) : Nat :=
  source_batch_counts.sum

/-- The observable control decisions of `run_train` around its empty-data
guard. -/
structure RunTrainOutcome where
  warned_no_data : Bool
  scheduler_built : Bool
  epoch_loop_entered : Bool
deriving DecidableEq, Repr

/-- The guard of `run_train` (`train_dense_encoder.py:205-245`): when the
iterator reports zero total iterations, log the warning and return — before
the scheduler is built and before the epoch loop, so no training happens and
no checkpoint is written (checkpoints are written only by `validate_and_save`
calls inside `_train_epoch`); otherwise the run proceeds. -/
def run_train_control (source_batch_counts : List Nat) (num_train_epochs : Nat) :
    RunTrainOutcome :=
  if get_max_iterations source_batch_counts = 0 then
    { warned_no_data := true, scheduler_built := false, epoch_loop_entered := false }
  else
    { warned_no_data := false, scheduler_built := true,
      epoch_loop_entered := 0 < num_train_epochs }

/-- C8: when every training source yields zero batches, `run_train` reports the
condition and returns with no scheduler built and no epoch entered (hence no
training step and no checkpoint); a single empty source among non-empty ones
leaves the total positive and training proceeds. -/
theorem run_train_empty_guard :
    (∀ (counts : List Nat) (epochs : Nat), (∀ c ∈ counts, c = 0) →
      run_train_control counts epochs =
        { warned_no_data := true, scheduler_built := false,
          epoch_loop_entered := false }) ∧
    (∀ (counts : List Nat) (epochs : Nat), (∃ c ∈ counts, 0 < c) →
      (run_train_control counts epochs).warned_no_data = false ∧
      (run_train_control counts epochs).scheduler_built = true ∧
      (0 < epochs → (run_train_control counts epochs).epoch_loop_entered = true)) := by
  constructor
  · intro counts epochs hall
    have hz : get_max_iterations counts = 0 :=
      List.sum_eq_zero hall
    simp [run_train_control, hz]
  · intro counts epochs hex
    have hnz : get_max_iterations counts ≠ 0 := by
      intro hz
      obtain ⟨c, hc, hcpos⟩ := hex
      have := (List.sum_eq_zero_iff.mp hz) c hc
      omega
    refine ⟨?_, ?_, ?_⟩ <;> simp [run_train_control, hnz]

/-- Witness for `run_train_empty_guard`: sources [0, 0] abort the run; sources
[0, 2] (one empty among non-empty) proceed. -/
theorem run_train_empty_guard_witness :
    run_train_control [0, 0] 1 =
      { warned_no_data := true, scheduler_built := false,
        epoch_loop_entered := false } ∧
    (run_train_control [0, 2] 1).scheduler_built = true ∧
    (run_train_control [0, 2] 1).epoch_loop_entered = true :=
  ⟨run_train_empty_guard.1 [0, 0] 1 (by decide),
   (run_train_empty_guard.2 [0, 2] 1 ⟨2, by decide, by decide⟩).2.1,
   (run_train_empty_guard.2 [0, 2] 1 ⟨2, by decide, by decide⟩).2.2 (by decide)⟩

/-- Whether `main` got as far as constructing the trainer and starting
training. -/
structure MainRun where
  trainer_constructed : Bool
  training_started : Bool
deriving DecidableEq, Repr

/-- The startup control flow of `main` (`train_dense_encoder.py:944-982`): the
gradient-accumulation check runs before the trainer is constructed and before
any training step; a violation raises `ValueError` with a descriptive message
and the program stops (a single error outcome, no retry). -/
def main_control (gradient_accumulation_steps : Int) (has_train_datasets : Bool) :
    Except String MainRun :=
  if gradient_accumulation_steps < 1 then
    Except.error ("Invalid gradient_accumulation_steps parameter: " ++
      toString gradient_accumulation_steps ++ ", should be >= 1")
  else
    Except.ok { trainer_constructed := true, training_started := has_train_datasets }

/-- C9: a configured `gradient_accumulation_steps < 1` makes `main` raise a
fatal `ValueError` carrying the descriptive message, before any trainer
construction or training step, with no retry — the run's single outcome is the
error. -/
theorem gas_config_error (gas : Int) (ht : Bool) (h : gas < 1) :
    main_control gas ht =
      Except.error ("Invalid gradient_accumulation_steps parameter: " ++
        toString gas ++ ", should be >= 1") := by
  rw [main_control, if_pos h]

/-- Witness for `gas_config_error`: `gradient_accumulation_steps = 0` aborts
startup with the error message. -/
theorem gas_config_error_witness :
    main_control 0 true =
      Except.error ("Invalid gradient_accumulation_steps parameter: " ++
        toString (0 : Int) ++ ", should be >= 1") :=
  gas_config_error 0 true (by norm_num)

end DPR
